import Mathlib

/-!
# Verification of the vocal-trainer audio core

Shallow embedding of the audio analysis core of the vocal-trainer
application: the note mapper (frequency ↔ note conversion), the
autocorrelation pitch detector, the heuristic confidence estimator, the
range tracker state machine, the vocal-range calculator with voice-type
classification, and the optimal-root-note computation.

Numbers that the source manipulates as IEEE doubles are modelled as real
numbers (`ℝ`); the 4th-octave frequency table is kept as exact decimal
rationals.  `Math.log2` is `Real.logb 2`, `Math.round` is `round`
(both round halves up, matching JavaScript), `Math.floor` on an integer
quotient is `Int.fdiv`, and the JavaScript `%` operator (sign of the
dividend) is modelled by `jsRem`.  Functions that can `throw` are
modelled with `Option`.
-/

namespace VocalTrainer

/-- Musical note frequencies (in Hz) for the 4th octave, the
`NOTE_FREQUENCIES` table.  The decimal literals 261.63, 277.18, ... are
written as the exact fractions n/100 so that they reduce in the
kernel. -/
def NOTE_FREQUENCIES : List (String × ℚ) :=
  [(("C"), 26163/100), (("C#"), 27718/100), (("D"), 29366/100), (("D#"), 31113/100),
   (("E"), 32963/100), (("F"), 34923/100), (("F#"), 36999/100), (("G"), 39200/100),
   (("G#"), 41530/100), (("A"), 44000/100), (("A#"), 46616/100), (("B"), 49388/100)]

/-- All note names in order, the `ALL_NOTES` array. -/
def ALL_NOTES : List String :=
  [("C"), ("C#"), ("D"), ("D#"), ("E"), ("F"), ("F#"), ("G"),
   ("G#"), ("A"), ("A#"), ("B")]

/-- JavaScript `%` (remainder with the sign of the dividend). -/
def jsRem (a b : ℤ) : ℤ :=
  Int.sign a * ((a.natAbs : ℤ) % (b.natAbs : ℤ))

/-- JavaScript array indexing `l[i]`: out-of-bounds (including negative)
indices yield `undefined`, which stringifies to "undefined" when
interpolated into a template literal. -/
def jsIndex (l : List String) (i : ℤ) : String :=
  if 0 ≤ i then l.getD i.toNat ("undefined") else ("undefined")

/-- `C0 = 440 * Math.pow(2, -4.75)`: C0 is 4.75 octaves below A4. -/
noncomputable def C0 : ℝ := 440 * (2 : ℝ) ^ (-4.75 : ℝ)

/-- `noteNum = 12 * Math.log2(frequency / C0)` from `frequencyToNote`. -/
noncomputable def noteNumOf (frequency : ℝ) : ℝ :=
  12 * Real.logb 2 (frequency / C0)

/-- `roundedNoteNum = Math.round(noteNum)` from `frequencyToNote`. -/
noncomputable def roundedNoteNumOf (frequency : ℝ) : ℤ :=
  round (noteNumOf frequency)

/-- `cents = Math.round((noteNum - roundedNoteNum) * 100)` from
`frequencyToNote`. -/
noncomputable def centsOf (frequency : ℝ) : ℤ :=
  round ((noteNumOf frequency - (roundedNoteNumOf frequency : ℝ)) * 100)

/-- The record `{ note, octave, cents }` returned by `frequencyToNote`. -/
structure NoteInfo where
  note : String
  octave : ℤ
  cents : ℤ
  deriving DecidableEq, Repr

/-- `frequencyToNote(frequency)`: convert a frequency to the closest
musical note.  For `frequency ≤ 0` it returns the fallback `A4` with
cents 0; otherwise `octave = Math.floor(roundedNoteNum / 12)` and
`note = ALL_NOTES[roundedNoteNum % 12]`. -/
noncomputable def frequencyToNote (frequency : ℝ) : NoteInfo :=
  if frequency ≤ 0 then ⟨("A"), 4, 0⟩
  else
    ⟨jsIndex ALL_NOTES (jsRem (roundedNoteNumOf frequency) 12),
     Int.fdiv (roundedNoteNumOf frequency) 12,
     centsOf frequency⟩

/-- JavaScript `String.prototype.toUpperCase()` on the ASCII note
names handled here: upper-case every character. -/
def jsToUpperCase (s : String) : String :=
  String.mk (s.data.map Char.toUpper)

/-- `NOTE_FREQUENCIES[noteName]` lookup. -/
def lookupNote (name : String) : Option ℚ :=
  NOTE_FREQUENCIES.lookup name

/-- `noteToFrequency(note, octave)`: scale the 4th-octave table entry by
`2^(octave-4)`.  An unknown note name (or a falsy table value) throws in
the source, modelled as `none`. -/
noncomputable def noteToFrequency (note : String) (octave : ℤ) : Option ℝ :=
  match lookupNote (jsToUpperCase note) with
  | none => none
  | some baseFrequency =>
    if baseFrequency = 0 then none
    else some ((baseFrequency : ℝ) * (2 : ℝ) ^ (octave - 4))

/-- `calculateCentsDifference(frequency1, frequency2)`: guarded cents
difference, `0` when either input is non-positive. -/
noncomputable def calculateCentsDifference (frequency1 frequency2 : ℝ) : ℤ :=
  if frequency1 ≤ 0 ∨ frequency2 ≤ 0 then 0
  else round (1200 * Real.logb 2 (frequency2 / frequency1))

/-- `isPitchInTolerance(frequency, targetNote, targetOctave,
toleranceCents)`: `none` models the exception thrown by the inner
`noteToFrequency` call on an invalid target note.  Note that, unlike
`frequencyToNote` and `calculateCentsDifference`, the detected
`frequency` is fed to `Math.log2` with no positivity guard. -/
noncomputable def isPitchInTolerance (frequency : ℝ) (targetNote : String)
    (targetOctave : ℤ) (toleranceCents : ℤ) : Option Bool :=
  match noteToFrequency targetNote targetOctave with
  | none => none
  | some targetFrequency =>
    some (decide (|round (1200 * Real.logb 2 (frequency / targetFrequency))| ≤ toleranceCents))

/-- The multiset of arguments that `frequencyToNote` feeds to
`Math.log2` along its evaluation path (empty when the `frequency ≤ 0`
guard fires first). -/
noncomputable def frequencyToNoteLog2Args (frequency : ℝ) : List ℝ :=
  if frequency ≤ 0 then [] else [frequency / C0]

/-- The arguments that `calculateCentsDifference` feeds to `Math.log2`
along its evaluation path. -/
noncomputable def calculateCentsDifferenceLog2Args (frequency1 frequency2 : ℝ) : List ℝ :=
  if frequency1 ≤ 0 ∨ frequency2 ≤ 0 then [] else [frequency2 / frequency1]

/-- The arguments that `isPitchInTolerance` feeds to `Math.log2` along
its evaluation path (none when `noteToFrequency` throws first). -/
noncomputable def isPitchInToleranceLog2Args (frequency : ℝ) (targetNote : String)
    (targetOctave : ℤ) : List ℝ :=
  match noteToFrequency targetNote targetOctave with
  | none => []
  | some targetFrequency => [frequency / targetFrequency]

/-- `AudioProcessor.calculatePitchConfidence(frequency)`. -/
noncomputable def calculatePitchConfidence (frequency : ℝ) : ℝ :=
  if frequency < 80 ∨ frequency > 1100 then 0.3
  else if frequency ≥ 100 ∧ frequency ≤ 800 then 0.9
  else 0.7

/-- `maxRecordedFrequencies = 100`: rolling-buffer capacity. -/
def maxRecordedFrequencies : ℕ := 100

/-- The mutable range-detection state of an `AudioProcessor` instance:
`recordedFrequencies`, `minFrequency` (initially `Infinity`, hence
`WithTop ℝ`), `maxFrequency` (initially `-Infinity`, hence `WithBot ℝ`)
and `stableReadings`. -/
structure TrackerState where
  recordedFrequencies : List ℝ
  minFrequency : WithTop ℝ
  maxFrequency : WithBot ℝ
  stableReadings : ℕ

/-- The state as reset when range detection starts. -/
def initialTrackerState : TrackerState :=
  ⟨[], ⊤, ⊥, 0⟩

/-- `AudioProcessor.handleRangeDetection(frequency)`: the state effect of
one incoming pitch.  The confidence is computed from the frequency by
`processPitchData`; only pitches with confidence above `0.8` are
recorded (with eviction of the oldest entry at capacity), all others
leave the state unchanged. -/
noncomputable def handleRangeDetection (s : TrackerState) (frequency : ℝ) :
    TrackerState :=
  if calculatePitchConfidence frequency > 0.8 then
    { recordedFrequencies :=
        (if s.recordedFrequencies.length ≥ maxRecordedFrequencies then
          s.recordedFrequencies.drop 1
        else s.recordedFrequencies) ++ [frequency]
      minFrequency := min s.minFrequency (frequency : WithTop ℝ)
      maxFrequency := max s.maxFrequency (frequency : WithBot ℝ)
      stableReadings := s.stableReadings + 1 }
  else s

/-- A whole tracking session: fold `handleRangeDetection` over the
stream of detected frequencies, starting from the reset state. -/
noncomputable def runTracker (inputs : List ℝ) : TrackerState :=
  inputs.foldl handleRangeDetection initialTrackerState

/-- RMS energy of a frame, `sqrt((Σ x[i]²) / bufferSize)`. -/
noncomputable def rmsOf (audioBuffer : List ℝ) : ℝ :=
  Real.sqrt (((audioBuffer.map fun v => v * v).sum) / audioBuffer.length)

/-- `correlations[lag] = Σ_{i < bufferSize - lag} x[i]·x[i+lag]`. -/
noncomputable def correlationAt (audioBuffer : List ℝ) (lag : ℕ) : ℝ :=
  ((List.range (audioBuffer.length - lag)).map fun i =>
    audioBuffer.getD i 0 * audioBuffer.getD (i + lag) 0).sum

/-- `minLag = Math.floor(sampleRate / 1100)`. -/
noncomputable def minLagOf (sampleRate : ℝ) : ℤ := ⌊sampleRate / 1100⌋

/-- `maxLag = Math.floor(sampleRate / 80)`. -/
noncomputable def maxLagOf (sampleRate : ℝ) : ℤ := ⌊sampleRate / 80⌋

/-- The lags visited by the search loop
`for (lag = minLag; lag < maxLag && lag < bufferSize; lag++)`
at which the correlation array is defined (negative lags read
`undefined` and can never win the comparison). -/
noncomputable def candidateLags (audioBuffer : List ℝ) (sampleRate : ℝ) : List ℕ :=
  (List.range (min (maxLagOf sampleRate).toNat audioBuffer.length)).drop
    (minLagOf sampleRate).toNat

/-- The peak search: fold of
`if (correlations[lag] > maxCorrelation) { maxCorrelation = correlations[lag]; bestLag = lag }`
starting from `maxCorrelation = 0`, `bestLag = -1`.  Returns the final
`(maxCorrelation, bestLag)`. -/
noncomputable def bestSearch (audioBuffer : List ℝ) (sampleRate : ℝ) : ℝ × ℤ :=
  (candidateLags audioBuffer sampleRate).foldl
    (fun acc lag =>
      if correlationAt audioBuffer lag > acc.1 then (correlationAt audioBuffer lag, (lag : ℤ))
      else acc)
    (0, -1)

/-- `detectPitch(audioBuffer, sampleRate)`: autocorrelation pitch
detection.  Returns `none` for silent frames (RMS below the `0.01`
threshold), for frames with no clear correlation peak, and for
frequencies outside the human voice range `[80, 1100]`. -/
noncomputable def detectPitch (audioBuffer : List ℝ) (sampleRate : ℝ) : Option ℝ :=
  if rmsOf audioBuffer < 0.01 then none
  else
    let best := bestSearch audioBuffer sampleRate
    if best.2 = -1 ∨ best.1 < 0.3 then none
    else
      let frequency := sampleRate / (best.2 : ℝ)
      if frequency < 80 ∨ frequency > 1100 then none
      else some frequency

/-- The `VocalRange` record. -/
structure VocalRange where
  lowestNote : String
  highestNote : String
  lowestFrequency : ℝ
  highestFrequency : ℝ
  rangeInSemitones : ℤ
  voiceType : String

/-- The neutral default `VocalRange` returned by `calculateVocalRange`
when no valid frequency is available (the source spells this record out
twice, once per guard). -/
noncomputable def defaultVocalRange : VocalRange :=
  ⟨("C4"), ("C4"), 261.63, 261.63, 0, ("unknown")⟩

/-- `determineVoiceType(lowestFrequency, highestFrequency)`: fixed
priority order, first match wins, else `unknown`. -/
noncomputable def determineVoiceType (lowestFrequency highestFrequency : ℝ) : String :=
  if lowestFrequency ≥ 250 ∧ highestFrequency ≥ 1000 then ("soprano")
  else if lowestFrequency ≥ 200 ∧ highestFrequency ≥ 850 then ("mezzo-soprano")
  else if lowestFrequency ≥ 170 ∧ highestFrequency ≥ 650 then ("alto")
  else if lowestFrequency ≥ 120 ∧ highestFrequency ≥ 500 then ("tenor")
  else if lowestFrequency ≥ 90 ∧ highestFrequency ≥ 380 then ("baritone")
  else if lowestFrequency ≥ 80 ∧ highestFrequency ≥ 320 then ("bass")
  else ("unknown")

/-- `Math.min(...xs)` over a nonempty spread (the empty case is
unreachable behind `calculateVocalRange`'s emptiness guards). -/
noncomputable def listMin : List ℝ → ℝ
  | [] => 0
  | h :: t => t.foldl min h

/-- `Math.max(...xs)` over a nonempty spread (the empty case is
unreachable behind `calculateVocalRange`'s emptiness guards). -/
noncomputable def listMax : List ℝ → ℝ
  | [] => 0
  | h :: t => t.foldl max h

/-- `validFrequencies = frequencies.filter(f => f > 0)` from
`calculateVocalRange`. -/
noncomputable def validFrequenciesOf (frequencies : List ℝ) : List ℝ :=
  frequencies.filter fun f => decide (f > 0)

/-- `calculateVocalRange(frequencies)`. -/
noncomputable def calculateVocalRange (frequencies : List ℝ) : VocalRange :=
  if frequencies.length = 0 then defaultVocalRange
  else
    let validFrequencies := validFrequenciesOf frequencies
    if validFrequencies.length = 0 then defaultVocalRange
    else
      let lowestFrequency := listMin validFrequencies
      let highestFrequency := listMax validFrequencies
      let lowestNoteInfo := frequencyToNote lowestFrequency
      let highestNoteInfo := frequencyToNote highestFrequency
      { lowestNote := lowestNoteInfo.note ++ toString lowestNoteInfo.octave
        highestNote := highestNoteInfo.note ++ toString highestNoteInfo.octave
        lowestFrequency := lowestFrequency
        highestFrequency := highestFrequency
        rangeInSemitones := round (12 * Real.logb 2 (highestFrequency / lowestFrequency))
        voiceType := determineVoiceType lowestFrequency highestFrequency }

/-- `parseInt` on a string of decimal digits. -/
def digitsToNat (ds : List Char) : ℕ :=
  ds.foldl (fun acc c => 10 * acc + (c.toNat - ('0').toNat)) 0

/-- `parseNoteString(noteString)`: the regex `^([A-G]#?)(\d+)$`; a
non-match throws in the source, modelled as `none`. -/
def parseNoteString (s : String) : Option (String × ℤ) :=
  match s.toList with
  | c :: ('#') :: ds =>
    if (('A') ≤ c ∧ c ≤ ('G')) ∧ ds ≠ [] ∧ ds.all Char.isDigit then
      some (String.mk [c, ('#')], (digitsToNat ds : ℤ))
    else none
  | c :: ds =>
    if (('A') ≤ c ∧ c ≤ ('G')) ∧ ds ≠ [] ∧ ds.all Char.isDigit then
      some (String.mk [c], (digitsToNat ds : ℤ))
    else none
  | [] => none

/-- `calculateOptimalRootNote(vocalRange)`: frequency midpoint, comfort
window clamp, octave normalization into `[3,5]`, and a final snap into
the user's actual range.  The early falsy guard on the frequencies and
the exceptions of the inner `parseNoteString` / `noteToFrequency` calls
are modelled with `Option`. -/
noncomputable def calculateOptimalRootNote (vocalRange : VocalRange) : Option String :=
  if vocalRange.lowestFrequency = 0 ∨ vocalRange.highestFrequency = 0 then some ("C4")
  else
    let lowestFreq := vocalRange.lowestFrequency
    let highestFreq := vocalRange.highestFrequency
    let middleFreq := (lowestFreq + highestFreq) / 2
    let comfortableLow := lowestFreq + (highestFreq - lowestFreq) * 0.2
    let comfortableHigh := lowestFreq + (highestFreq - lowestFreq) * 0.8
    let adjustedFreq :=
      if middleFreq < comfortableLow then comfortableLow
      else if middleFreq > comfortableHigh then comfortableHigh
      else middleFreq
    let adjustedNoteInfo := frequencyToNote adjustedFreq
    let finalNote :=
      if adjustedNoteInfo.octave < 3 then
        let octaveDiff := 3 - adjustedNoteInfo.octave
        let normalizedNoteInfo := frequencyToNote (adjustedFreq * (2 : ℝ) ^ octaveDiff)
        normalizedNoteInfo.note ++ toString normalizedNoteInfo.octave
      else if adjustedNoteInfo.octave > 5 then
        let octaveDiff := adjustedNoteInfo.octave - 5
        let normalizedNoteInfo := frequencyToNote (adjustedFreq / (2 : ℝ) ^ octaveDiff)
        normalizedNoteInfo.note ++ toString normalizedNoteInfo.octave
      else adjustedNoteInfo.note ++ toString adjustedNoteInfo.octave
    match parseNoteString finalNote with
    | none => none
    | some finalNoteInfo =>
      match noteToFrequency finalNoteInfo.1 finalNoteInfo.2 with
      | none => none
      | some finalFreq =>
        if finalFreq < lowestFreq then
          let closestNoteInfo := frequencyToNote lowestFreq
          some (closestNoteInfo.note ++ toString closestNoteInfo.octave)
        else if finalFreq > highestFreq then
          let closestNoteInfo := frequencyToNote highestFreq
          some (closestNoteInfo.note ++ toString closestNoteInfo.octave)
        else some finalNote

/-! ### Helper lemmas: bounding `logb` by rational powers -/

lemma abs_logb_le_of_pow (x : ℝ) (n : ℕ) (hn : 0 < n) (hx : 0 < x)
    (h1 : 1/2 ≤ x ^ n) (h2 : x ^ n ≤ 2) : |Real.logb 2 x| ≤ 1 / n := by
  have hxn : 0 < x ^ n := pow_pos hx n
  have hlog : |Real.logb 2 (x ^ n)| ≤ 1 := by
    rw [abs_le]
    constructor
    · have h12 : Real.logb 2 ((2:ℝ)⁻¹) = -1 := by
        rw [Real.logb_inv, Real.logb_self_eq_one one_lt_two]
      have hmono : Real.logb 2 ((2:ℝ)⁻¹) ≤ Real.logb 2 (x ^ n) :=
        (Real.logb_le_logb one_lt_two (by norm_num) hxn).mpr (by rw [inv_eq_one_div]; exact h1)
      linarith
    · have hmono : Real.logb 2 (x ^ n) ≤ Real.logb 2 2 :=
        (Real.logb_le_logb one_lt_two hxn (by norm_num)).mpr h2
      rw [Real.logb_self_eq_one one_lt_two] at hmono
      exact hmono
  rw [Real.logb_pow, abs_mul, Nat.abs_cast] at hlog
  have hn' : (0:ℝ) < n := by exact_mod_cast hn
  rw [le_div_iff₀ hn']
  linarith [hlog]

/-- The twelfth-power bracketing that pins the fractional part of a
note number: if `((a/44000)^12 * 2^9 / 2^idx)^67` lies in `[1/2, 2]`
then `12·log2(a/44000) + 9 - idx` is within `1/67` of zero. -/
lemma twelfthBound (a idx : ℕ) (ha : 0 < a)
    (h1 : 1/2 ≤ (((a:ℝ)/44000)^12 * 2^9 / 2^idx) ^ 67)
    (h2 : (((a:ℝ)/44000)^12 * 2^9 / 2^idx) ^ 67 ≤ 2) :
    |12 * Real.logb 2 ((a:ℝ)/44000) + 9 - (idx:ℝ)| ≤ 1/67 := by
  have hapos : (0:ℝ) < a := Nat.cast_pos.mpr ha
  have hs0 : (0:ℝ) < ((a:ℝ)/44000)^12 * 2^9 / 2^idx := by positivity
  have hb := abs_logb_le_of_pow _ 67 (by norm_num) hs0 h1 h2
  have hsplit : Real.logb 2 (((a:ℝ)/44000)^12 * 2^9 / 2^idx)
      = 12 * Real.logb 2 ((a:ℝ)/44000) + 9 - (idx:ℝ) := by
    rw [Real.logb_div (by positivity) (by positivity),
        Real.logb_mul (by positivity) (by positivity),
        Real.logb_pow, Real.logb_pow, Real.logb_pow,
        Real.logb_self_eq_one one_lt_two]
    push_cast
    ring
  rw [hsplit] at hb
  norm_num at hb ⊢
  exact hb

lemma le_logb_of_pow (r : ℝ) (p : ℤ) (q : ℕ) (hr : 0 < r) (hq : 0 < q)
    (h : (2:ℝ)^p ≤ r ^ q) : (p:ℝ)/(q:ℝ) ≤ Real.logb 2 r := by
  have h2p : (0:ℝ) < (2:ℝ)^p := zpow_pos (by norm_num) _
  have hm : Real.logb 2 ((2:ℝ)^p) ≤ Real.logb 2 (r ^ q) :=
    (Real.logb_le_logb one_lt_two h2p (pow_pos hr q)).mpr h
  rw [Real.logb_pow] at hm
  rw [show ((2:ℝ)^p : ℝ) = (2:ℝ)^((p:ℤ):ℝ) from (Real.rpow_intCast 2 p).symm,
      Real.logb_rpow (by norm_num) (by norm_num)] at hm
  have hq' : (0:ℝ) < q := by exact_mod_cast hq
  rw [div_le_iff₀ hq']
  linarith [hm]

lemma logb_lt_of_pow (r : ℝ) (p : ℤ) (q : ℕ) (hr : 0 < r) (hq : 0 < q)
    (h : r ^ q < (2:ℝ)^p) : Real.logb 2 r < (p:ℝ)/(q:ℝ) := by
  have hm : Real.logb 2 (r ^ q) < Real.logb 2 ((2:ℝ)^p) :=
    Real.logb_lt_logb one_lt_two (pow_pos hr q) h
  rw [Real.logb_pow] at hm
  rw [show ((2:ℝ)^p : ℝ) = (2:ℝ)^((p:ℤ):ℝ) from (Real.rpow_intCast 2 p).symm,
      Real.logb_rpow (by norm_num) (by norm_num)] at hm
  have hq' : (0:ℝ) < q := by exact_mod_cast hq
  rw [lt_div_iff₀ hq']
  linarith [hm]

/-- Splitting a note number: for `f = (a/100)·2^(o-4)`,
`noteNum(f) = (12o + idx) + (12·log2(a/44000) + 9 - idx)`. -/
lemma noteNum_split (a idx : ℕ) (o : ℤ) (ha : 0 < a) :
    noteNumOf ((a:ℝ)/100 * 2^(o-4))
      = ((12 * o + (idx:ℤ) : ℤ) : ℝ) + (12 * Real.logb 2 ((a:ℝ)/44000) + 9 - (idx:ℝ)) := by
  have hapos : (0:ℝ) < a := Nat.cast_pos.mpr ha
  have hz : (0:ℝ) < (2:ℝ)^(o-4) := zpow_pos (by norm_num) _
  have hr : (0:ℝ) < (2:ℝ)^((4.75:ℝ)) := Real.rpow_pos_of_pos (by norm_num) _
  have hsplit : (a:ℝ)/100 * 2^(o-4) / C0
      = ((a:ℝ)/44000) * ((2:ℝ)^(o-4) * (2:ℝ)^((4.75:ℝ))) := by
    show (a:ℝ)/100 * 2^(o-4) / (440 * (2 : ℝ) ^ (-4.75 : ℝ)) = _
    rw [show (-4.75:ℝ) = -(4.75:ℝ) by norm_num, Real.rpow_neg (by norm_num)]
    field_simp
    ring
  unfold noteNumOf
  rw [hsplit, Real.logb_mul (by positivity) (by positivity),
      Real.logb_mul (by positivity) (by positivity)]
  rw [show ((2:ℝ)^(o-4) : ℝ) = (2:ℝ)^(((o-4 : ℤ)):ℝ) from (Real.rpow_intCast 2 (o-4)).symm]
  rw [Real.logb_rpow (by norm_num) (by norm_num), Real.logb_rpow (by norm_num) (by norm_num)]
  push_cast
  ring

/-! ### Helper lemmas: rounding and JavaScript remainders -/

lemma jsRem_nonneg (a b : ℤ) (ha : 0 ≤ a) (hb : 0 ≤ b) : jsRem a b = a % b := by
  unfold jsRem
  rcases ha.lt_or_eq with h | h
  · rw [Int.sign_eq_one_iff_pos.mpr h, one_mul, Int.natAbs_of_nonneg ha,
      Int.natAbs_of_nonneg hb]
  · rw [← h]
    simp

lemma abs_round_le_one (x : ℝ) (h : |x| ≤ 100/67) : |round x| ≤ 1 := by
  rw [abs_le] at h
  rw [round_eq, abs_le]
  constructor
  · exact Int.le_floor.mpr (by push_cast; linarith)
  · have h2 : ⌊x + 1/2⌋ < 2 := Int.floor_lt.mpr (by push_cast; linarith)
    omega

lemma round_eq_of_small (e : ℝ) (k : ℤ) (h : |e| ≤ 1/67) : round ((k:ℝ) + e) = k := by
  rw [add_comm, round_add_int]
  rw [abs_le] at h
  have h0 : round e = 0 := by
    rw [round_eq, Int.floor_eq_zero_iff, Set.mem_Ico]
    constructor <;> [linarith; linarith]
  rw [h0, zero_add]

/-! ### Evaluating the note mapper -/

lemma frequencyToNote_of_pos (f : ℝ) (hf : 0 < f) :
    frequencyToNote f
      = ⟨jsIndex ALL_NOTES (jsRem (roundedNoteNumOf f) 12),
         Int.fdiv (roundedNoteNumOf f) 12, centsOf f⟩ := by
  unfold frequencyToNote
  rw [if_neg (not_le.mpr hf)]

/-- Full evaluation of `frequencyToNote` on a table frequency
`(a/100)·2^(o-4)`: the pitch class comes back as `ALL_NOTES[idx]`, the
octave as `o`, and the cents offset is at most one cent. -/
lemma frequencyToNote_table (a idx : ℕ) (o : ℤ) (ha : 0 < a) (hidx : idx < 12)
    (ho : 0 ≤ o)
    (h1 : 1/2 ≤ (((a:ℝ)/44000)^12 * 2^9 / 2^idx) ^ 67)
    (h2 : (((a:ℝ)/44000)^12 * 2^9 / 2^idx) ^ 67 ≤ 2) :
    (frequencyToNote ((a:ℝ)/100 * 2^(o-4))).note = jsIndex ALL_NOTES (idx:ℤ) ∧
    (frequencyToNote ((a:ℝ)/100 * 2^(o-4))).octave = o ∧
    |(frequencyToNote ((a:ℝ)/100 * 2^(o-4))).cents| ≤ 1 := by
  have hapos : (0:ℝ) < a := Nat.cast_pos.mpr ha
  have hz : (0:ℝ) < (2:ℝ)^(o-4) := zpow_pos (by norm_num) _
  have hf : (0:ℝ) < (a:ℝ)/100 * 2^(o-4) := by positivity
  have key := twelfthBound a idx ha h1 h2
  have hnn := noteNum_split a idx o ha
  have hrnn : roundedNoteNumOf ((a:ℝ)/100 * 2^(o-4)) = 12 * o + (idx:ℤ) := by
    unfold roundedNoteNumOf
    rw [hnn]
    exact round_eq_of_small _ _ key
  have hrec := frequencyToNote_of_pos _ hf
  have hj : jsRem (roundedNoteNumOf ((a:ℝ)/100 * 2^(o-4))) 12 = (idx:ℤ) := by
    rw [hrnn, jsRem_nonneg _ _ (by omega) (by norm_num)]
    omega
  have hd : Int.fdiv (roundedNoteNumOf ((a:ℝ)/100 * 2^(o-4))) 12 = o := by
    rw [hrnn, Int.fdiv_eq_ediv _ (by norm_num)]
    omega
  have hc : centsOf ((a:ℝ)/100 * 2^(o-4))
      = round ((12 * Real.logb 2 ((a:ℝ)/44000) + 9 - (idx:ℝ)) * 100) := by
    unfold centsOf
    rw [hnn, hrnn]
    congr 1
    push_cast
    ring
  refine ⟨?_, ?_, ?_⟩
  · rw [hrec, hj]
  · rw [hrec]
    exact hd
  · rw [hrec]
    show |centsOf ((a:ℝ)/100 * 2^(o-4))| ≤ 1
    rw [hc]
    apply abs_round_le_one
    rw [abs_mul, abs_of_nonneg (by norm_num : (0:ℝ) ≤ 100)]
    linarith [key]

lemma noteToFrequency_eval (p : String) (b : ℚ) (o : ℤ)
    (hlk : lookupNote (jsToUpperCase p) = some b) (hb : ¬ b = 0) :
    noteToFrequency p o = some ((b:ℝ) * 2^(o-4)) := by
  simp only [noteToFrequency, hlk]
  rw [if_neg hb]

/-- One pitch-class case of the round-trip law. -/
lemma roundTrip_case (p : String) (b : ℚ) (a idx : ℕ) (o : ℤ) (ho : 0 ≤ o)
    (hlk : lookupNote (jsToUpperCase p) = some b) (hb : ¬ b = 0)
    (hcast : (b:ℝ) = (a:ℝ)/100) (ha : 0 < a) (hidx : idx < 12)
    (hstr : jsIndex ALL_NOTES (idx:ℤ) = p)
    (h1 : 1/2 ≤ (((a:ℝ)/44000)^12 * 2^9 / 2^idx) ^ 67)
    (h2 : (((a:ℝ)/44000)^12 * 2^9 / 2^idx) ^ 67 ≤ 2) :
    ∃ f, noteToFrequency p o = some f ∧
      (frequencyToNote f).note = p ∧ (frequencyToNote f).octave = o ∧
      |(frequencyToNote f).cents| ≤ 1 := by
  have htab := frequencyToNote_table a idx o ha hidx ho h1 h2
  refine ⟨(a:ℝ)/100 * 2^(o-4), ?_, ?_, htab.2.1, htab.2.2⟩
  · rw [noteToFrequency_eval p b o hlk hb, hcast]
  · rw [htab.1, hstr]

/-! ### C1: the round-trip law of the note mapper -/

/-- C1: For every valid pitch class `p` in the twelve-entry note table
and every octave `o` in the valid singing range (here `0 ≤ o ≤ 8`),
`frequencyToNote (noteToFrequency p o)` returns the same pitch class
`p` and the same octave `o`, with a cents offset of absolute value at
most 1. -/
theorem frequencyToNote_noteToFrequency_roundTrip (p : String) (o : ℤ)
    (hp : p ∈ ALL_NOTES) (ho : 0 ≤ o ∧ o ≤ 8) :
    ∃ f, noteToFrequency p o = some f ∧
      (frequencyToNote f).note = p ∧ (frequencyToNote f).octave = o ∧
      |(frequencyToNote f).cents| ≤ 1 := by
  obtain ⟨ho0, -⟩ := ho
  simp only [ALL_NOTES, List.mem_cons, List.not_mem_nil, or_false] at hp
  rcases hp with rfl | rfl | rfl | rfl | rfl | rfl | rfl | rfl | rfl | rfl | rfl | rfl
  · exact roundTrip_case _ (26163/100) 26163 0 o ho0 (by rfl) (by norm_num)
      (by norm_num) (by norm_num) (by norm_num) (by decide) (by norm_num) (by norm_num)
  · exact roundTrip_case _ (27718/100) 27718 1 o ho0 (by rfl) (by norm_num)
      (by norm_num) (by norm_num) (by norm_num) (by decide) (by norm_num) (by norm_num)
  · exact roundTrip_case _ (29366/100) 29366 2 o ho0 (by rfl) (by norm_num)
      (by norm_num) (by norm_num) (by norm_num) (by decide) (by norm_num) (by norm_num)
  · exact roundTrip_case _ (31113/100) 31113 3 o ho0 (by rfl) (by norm_num)
      (by norm_num) (by norm_num) (by norm_num) (by decide) (by norm_num) (by norm_num)
  · exact roundTrip_case _ (32963/100) 32963 4 o ho0 (by rfl) (by norm_num)
      (by norm_num) (by norm_num) (by norm_num) (by decide) (by norm_num) (by norm_num)
  · exact roundTrip_case _ (34923/100) 34923 5 o ho0 (by rfl) (by norm_num)
      (by norm_num) (by norm_num) (by norm_num) (by decide) (by norm_num) (by norm_num)
  · exact roundTrip_case _ (36999/100) 36999 6 o ho0 (by rfl) (by norm_num)
      (by norm_num) (by norm_num) (by norm_num) (by decide) (by norm_num) (by norm_num)
  · exact roundTrip_case _ (39200/100) 39200 7 o ho0 (by rfl) (by norm_num)
      (by norm_num) (by norm_num) (by norm_num) (by decide) (by norm_num) (by norm_num)
  · exact roundTrip_case _ (41530/100) 41530 8 o ho0 (by rfl) (by norm_num)
      (by norm_num) (by norm_num) (by norm_num) (by decide) (by norm_num) (by norm_num)
  · exact roundTrip_case _ (44000/100) 44000 9 o ho0 (by rfl) (by norm_num)
      (by norm_num) (by norm_num) (by norm_num) (by decide) (by norm_num) (by norm_num)
  · exact roundTrip_case _ (46616/100) 46616 10 o ho0 (by rfl) (by norm_num)
      (by norm_num) (by norm_num) (by norm_num) (by decide) (by norm_num) (by norm_num)
  · exact roundTrip_case _ (49388/100) 49388 11 o ho0 (by rfl) (by norm_num)
      (by norm_num) (by norm_num) (by norm_num) (by decide) (by norm_num) (by norm_num)

/-- Witness for C1 at the concrete input `A4`. -/
theorem frequencyToNote_noteToFrequency_roundTrip_witness :
    (("A") ∈ ALL_NOTES ∧ (0 ≤ (4:ℤ) ∧ (4:ℤ) ≤ 8)) ∧
    (∃ f, noteToFrequency ("A") 4 = some f ∧
      (frequencyToNote f).note = ("A") ∧ (frequencyToNote f).octave = 4 ∧
      |(frequencyToNote f).cents| ≤ 1) :=
  ⟨⟨by decide, by decide, by decide⟩,
    frequencyToNote_noteToFrequency_roundTrip ("A") 4 (by decide) ⟨by decide, by decide⟩⟩

/-! ### C2: the confidence estimator's bands -/

/-- C2, counterexample: the claim assigns 0.3 to the edge band
`[80,100)`, but at 90 Hz the code returns 0.7, not 0.3. -/
theorem calculatePitchConfidence_at_90 :
    calculatePitchConfidence 90 = 0.7 ∧ (0.7:ℝ) ≠ 0.3 := by
  constructor
  · unfold calculatePitchConfidence
    norm_num
  · norm_num

/-- C2, amended: the code returns 0.3 below 80 Hz and above 1100 Hz,
0.9 on the typical vocal band `[100,800]`, and 0.7 on the edge bands
`[80,100) ∪ (800,1100]`. -/
theorem calculatePitchConfidence_band_values (f : ℝ) :
    (f < 80 ∨ 1100 < f → calculatePitchConfidence f = 0.3) ∧
    (100 ≤ f ∧ f ≤ 800 → calculatePitchConfidence f = 0.9) ∧
    ((80 ≤ f ∧ f < 100) ∨ (800 < f ∧ f ≤ 1100) → calculatePitchConfidence f = 0.7) := by
  unfold calculatePitchConfidence
  refine ⟨fun h => ?_, fun h => ?_, fun h => ?_⟩
  · rw [if_pos h]
  · rw [if_neg (by push_neg; constructor <;> linarith [h.1, h.2]), if_pos h]
  · rcases h with h | h
    · rw [if_neg (by push_neg; constructor <;> linarith [h.1, h.2]),
        if_neg (by rintro ⟨h1, -⟩; linarith [h.2])]
    · rw [if_neg (by push_neg; constructor <;> linarith [h.1, h.2]),
        if_neg (by rintro ⟨-, h2⟩; linarith [h.1])]

/-- Witness for C2's amended theorem, at 50 Hz, 200 Hz and 1000 Hz. -/
theorem calculatePitchConfidence_band_values_witness :
    calculatePitchConfidence 50 = 0.3 ∧ calculatePitchConfidence 200 = 0.9 ∧
    calculatePitchConfidence 1000 = 0.7 :=
  ⟨(calculatePitchConfidence_band_values 50).1 (by norm_num),
   (calculatePitchConfidence_band_values 200).2.1 (by norm_num),
   (calculatePitchConfidence_band_values 1000).2.2 (Or.inr (by norm_num))⟩

/-! ### C7: voice-type classification is first-match over the table -/

/-- The classification table of the spec, rows in priority order:
voice type, lower-bound threshold on the low end, lower-bound threshold
on the high end. -/
noncomputable def voiceTypeTable : List (String × ℝ × ℝ) :=
  [(("soprano"), 250, 1000), (("mezzo-soprano"), 200, 850), (("alto"), 170, 650),
   (("tenor"), 120, 500), (("baritone"), 90, 380), (("bass"), 80, 320)]

/-- Modelled from the spec's words ("evaluated in this fixed priority
order, first match wins, else unknown"): walk the rows in order and
return the first whose two thresholds are both met. -/
noncomputable def firstMatch : List (String × ℝ × ℝ) → ℝ → ℝ → String
  | [], _, _ => ("unknown")
  | r :: rest, low, high =>
    if r.2.1 ≤ low ∧ r.2.2 ≤ high then r.1 else firstMatch rest low high

/-- First-match classification over the spec's priority table. -/
noncomputable def classifyFirstMatch (low high : ℝ) : String :=
  firstMatch voiceTypeTable low high

/-- C7: `determineVoiceType` is exactly first-match evaluation of the
priority table, and on `(260, 1050)` it returns soprano even though the
lower-priority mezzo-soprano, alto, tenor, baritone and bass rows also
match. -/
theorem determineVoiceType_first_match :
    (∀ low high : ℝ, determineVoiceType low high = classifyFirstMatch low high) ∧
    determineVoiceType 260 1050 = ("soprano") ∧
    ((200:ℝ) ≤ 260 ∧ (850:ℝ) ≤ 1050) ∧ ((170:ℝ) ≤ 260 ∧ (650:ℝ) ≤ 1050) ∧
    ((120:ℝ) ≤ 260 ∧ (500:ℝ) ≤ 1050) ∧ ((90:ℝ) ≤ 260 ∧ (380:ℝ) ≤ 1050) ∧
    ((80:ℝ) ≤ 260 ∧ (320:ℝ) ≤ 1050) := by
  refine ⟨fun low high => ?_, ?_, by norm_num, by norm_num, by norm_num,
    by norm_num, by norm_num⟩
  · unfold determineVoiceType classifyFirstMatch voiceTypeTable
    simp only [firstMatch, ge_iff_le]
  · unfold determineVoiceType
    norm_num

/-! ### C3: the frame effect of one range-detection step -/

/-- C3: while tracking, an incoming frequency whose computed confidence
exceeds 0.8 is pushed into the rolling buffer (evicting the oldest
entry at the capacity of 100), updates the running min and max, and
increments the stable-reading count; a frequency with confidence at
most 0.8 leaves the state unchanged. -/
theorem handleRangeDetection_frame_effect (s : TrackerState) (frequency : ℝ) :
    maxRecordedFrequencies = 100 ∧
    (0.8 < calculatePitchConfidence frequency →
      handleRangeDetection s frequency =
        { recordedFrequencies :=
            (if 100 ≤ s.recordedFrequencies.length then s.recordedFrequencies.drop 1
             else s.recordedFrequencies) ++ [frequency]
          minFrequency := min s.minFrequency (frequency : WithTop ℝ)
          maxFrequency := max s.maxFrequency (frequency : WithBot ℝ)
          stableReadings := s.stableReadings + 1 }) ∧
    (calculatePitchConfidence frequency ≤ 0.8 → handleRangeDetection s frequency = s) := by
  refine ⟨rfl, fun h => ?_, fun h => ?_⟩
  · unfold handleRangeDetection
    rw [if_pos h]
    simp [maxRecordedFrequencies, ge_iff_le]
  · unfold handleRangeDetection
    rw [if_neg (not_lt.mpr h)]

/-- Witness for C3: an accepted 200 Hz sample and a discarded 90 Hz
sample, from the reset state. -/
theorem handleRangeDetection_frame_effect_witness :
    handleRangeDetection initialTrackerState 200 =
      { recordedFrequencies := ([] : List ℝ) ++ [(200:ℝ)]
        minFrequency := min ⊤ ((200:ℝ) : WithTop ℝ)
        maxFrequency := max ⊥ ((200:ℝ) : WithBot ℝ)
        stableReadings := 0 + 1 } ∧
    handleRangeDetection initialTrackerState 90 = initialTrackerState := by
  constructor
  · have h := (handleRangeDetection_frame_effect initialTrackerState 200).2.1
      (by unfold calculatePitchConfidence; norm_num)
    rw [h]
    simp [initialTrackerState]
  · exact (handleRangeDetection_frame_effect initialTrackerState 90).2.2
      (by unfold calculatePitchConfidence; norm_num)

/-! ### C5: the neutral default of `calculateVocalRange` -/

/-- C5: on the empty list, and more generally on any list with no
positive frequency, `calculateVocalRange` returns (without any division
or logarithm) the neutral default: lowest and highest note both the
reference note C4, lowest and highest frequency both the C4 table
frequency 261.63, zero semitones of range, and the voice type
`unknown`. -/
theorem calculateVocalRange_neutral_default (l : List ℝ) (h : ∀ f ∈ l, f ≤ 0) :
    calculateVocalRange l = defaultVocalRange ∧
    defaultVocalRange.lowestNote = defaultVocalRange.highestNote ∧
    defaultVocalRange.lowestFrequency = defaultVocalRange.highestFrequency ∧
    defaultVocalRange.rangeInSemitones = 0 ∧
    defaultVocalRange.voiceType = ("unknown") ∧
    noteToFrequency ("C") 4 = some defaultVocalRange.lowestFrequency := by
  refine ⟨?_, rfl, rfl, rfl, rfl, ?_⟩
  · have hv : validFrequenciesOf l = [] := by
      unfold validFrequenciesOf
      rw [List.filter_eq_nil_iff]
      intro a ha
      simpa using not_lt.mpr (h a ha)
    simp [calculateVocalRange, hv, ite_self]
  · rw [noteToFrequency_eval ("C") (26163/100) 4 (by rfl) (by norm_num)]
    show some (((26163/100:ℚ):ℝ) * (2:ℝ) ^ ((4:ℤ) - 4)) = some (261.63:ℝ)
    norm_num

/-- Witness for C5: the empty list and a list of non-positive readings. -/
theorem calculateVocalRange_neutral_default_witness :
    calculateVocalRange [] = defaultVocalRange ∧
    calculateVocalRange [(0:ℝ), -5] = defaultVocalRange :=
  ⟨(calculateVocalRange_neutral_default [] (by simp)).1,
   (calculateVocalRange_neutral_default [(0:ℝ), -5]
     (by intro f hf; simp only [List.mem_cons, List.not_mem_nil, or_false] at hf
         rcases hf with rfl | rfl <;> norm_num)).1⟩

/-! ### List minimum / maximum helpers for `Math.min(...)` spreads -/

lemma foldl_min_le_init (t : List ℝ) (a : ℝ) : t.foldl min a ≤ a := by
  induction t generalizing a with
  | nil => simp
  | cons x xs ih =>
    simp only [List.foldl_cons]
    exact le_trans (ih (min a x)) (min_le_left a x)

lemma init_le_foldl_max (t : List ℝ) (a : ℝ) : a ≤ t.foldl max a := by
  induction t generalizing a with
  | nil => simp
  | cons x xs ih =>
    simp only [List.foldl_cons]
    exact le_trans (le_max_left a x) (ih (max a x))

lemma le_foldl_min (t : List ℝ) (a c : ℝ) (hc : c ≤ a) (h : ∀ x ∈ t, c ≤ x) :
    c ≤ t.foldl min a := by
  induction t generalizing a with
  | nil => simpa
  | cons x xs ih =>
    simp only [List.foldl_cons]
    exact ih (min a x) (le_min hc (h x (by simp))) fun y hy => h y (by simp [hy])

lemma foldl_max_le (t : List ℝ) (a c : ℝ) (hc : a ≤ c) (h : ∀ x ∈ t, x ≤ c) :
    t.foldl max a ≤ c := by
  induction t generalizing a with
  | nil => simpa
  | cons x xs ih =>
    simp only [List.foldl_cons]
    exact ih (max a x) (max_le hc (h x (by simp))) fun y hy => h y (by simp [hy])

lemma listMin_le_listMax (l : List ℝ) (hl : l ≠ []) : listMin l ≤ listMax l := by
  cases l with
  | nil => exact absurd rfl hl
  | cons x xs =>
    unfold listMin listMax
    exact le_trans (foldl_min_le_init xs x) (init_le_foldl_max xs x)

lemma le_listMin (l : List ℝ) (c : ℝ) (hl : l ≠ []) (h : ∀ x ∈ l, c ≤ x) :
    c ≤ listMin l := by
  cases l with
  | nil => exact absurd rfl hl
  | cons x xs =>
    unfold listMin
    exact le_foldl_min xs x c (h x (by simp)) fun y hy => h y (by simp [hy])

lemma listMax_le (l : List ℝ) (c : ℝ) (hl : l ≠ []) (h : ∀ x ∈ l, x ≤ c) :
    listMax l ≤ c := by
  cases l with
  | nil => exact absurd rfl hl
  | cons x xs =>
    unfold listMax
    exact foldl_max_le xs x c (h x (by simp)) fun y hy => h y (by simp [hy])

/-! ### C4: invariants of `calculateVocalRange` -/

/-- C4: on a nonempty list of positive frequencies, the computed
`VocalRange` satisfies `lowestFrequency ≤ highestFrequency`,
`rangeInSemitones = round (12·log2(high/low))`, and `voiceType` is the
deterministic classification of `(low, high)` alone. -/
theorem calculateVocalRange_invariants (l : List ℝ) (hne : l ≠ [])
    (hpos : ∀ f ∈ l, 0 < f) :
    (calculateVocalRange l).lowestFrequency ≤ (calculateVocalRange l).highestFrequency ∧
    (calculateVocalRange l).rangeInSemitones
      = round (12 * Real.logb 2 ((calculateVocalRange l).highestFrequency
          / (calculateVocalRange l).lowestFrequency)) ∧
    (calculateVocalRange l).voiceType
      = determineVoiceType (calculateVocalRange l).lowestFrequency
          (calculateVocalRange l).highestFrequency := by
  have hv : validFrequenciesOf l = l := by
    unfold validFrequenciesOf
    rw [List.filter_eq_self]
    intro a ha
    simpa using hpos a ha
  have hlen : ¬ l.length = 0 := by
    simpa [List.length_eq_zero] using hne
  refine ⟨?_, ?_, ?_⟩ <;> simp only [calculateVocalRange, hv, if_neg hlen]
  exact listMin_le_listMax l hne

/-- Witness for C4, on the tenor-like test list `[130.81, 523.25]`. -/
theorem calculateVocalRange_invariants_witness :
    (calculateVocalRange [(130.81:ℝ), 523.25]).lowestFrequency
      ≤ (calculateVocalRange [(130.81:ℝ), 523.25]).highestFrequency ∧
    (calculateVocalRange [(130.81:ℝ), 523.25]).rangeInSemitones
      = round (12 * Real.logb 2 ((calculateVocalRange [(130.81:ℝ), 523.25]).highestFrequency
          / (calculateVocalRange [(130.81:ℝ), 523.25]).lowestFrequency)) ∧
    (calculateVocalRange [(130.81:ℝ), 523.25]).voiceType
      = determineVoiceType (calculateVocalRange [(130.81:ℝ), 523.25]).lowestFrequency
          (calculateVocalRange [(130.81:ℝ), 523.25]).highestFrequency :=
  calculateVocalRange_invariants [(130.81:ℝ), 523.25] (by simp)
    (by intro f hf
        simp only [List.mem_cons, List.not_mem_nil, or_false] at hf
        rcases hf with rfl | rfl <;> norm_num)

/-! ### C10: only the typical vocal band is ever recorded -/

/-- The confidence gate: a frequency passes the `> 0.8` acceptance test
exactly when it lies in the typical vocal band `[100, 800]`. -/
lemma confidence_gt_iff (f : ℝ) :
    0.8 < calculatePitchConfidence f ↔ 100 ≤ f ∧ f ≤ 800 := by
  unfold calculatePitchConfidence
  split_ifs with h1 h2
  · constructor
    · intro h
      norm_num at h
    · rintro ⟨ha, hb⟩
      exfalso
      rcases h1 with h1 | h1 <;> linarith
  · constructor
    · intro _
      exact h2
    · intro _
      norm_num
  · constructor
    · intro h
      norm_num at h
    · intro h
      exact absurd h h2

/-- The session invariant of the range tracker. -/
def trackerInv (s : TrackerState) : Prop :=
  (∀ f ∈ s.recordedFrequencies, 100 ≤ f ∧ f ≤ 800) ∧
  ((100:ℝ) : WithTop ℝ) ≤ s.minFrequency ∧
  s.maxFrequency ≤ ((800:ℝ) : WithBot ℝ)

lemma handleRangeDetection_preserves (s : TrackerState) (f : ℝ)
    (h : trackerInv s) : trackerInv (handleRangeDetection s f) := by
  unfold handleRangeDetection
  split_ifs with hc hlen
  · obtain ⟨hbuf, hmin, hmax⟩ := h
    have hf : 100 ≤ f ∧ f ≤ 800 := (confidence_gt_iff f).mp hc
    refine ⟨?_, le_min hmin (WithTop.coe_le_coe.mpr hf.1),
      max_le hmax (WithBot.coe_le_coe.mpr hf.2)⟩
    intro x hx
    simp only [List.mem_append, List.mem_singleton] at hx
    rcases hx with hx | rfl
    · exact hbuf x (List.mem_of_mem_drop hx)
    · exact hf
  · obtain ⟨hbuf, hmin, hmax⟩ := h
    have hf : 100 ≤ f ∧ f ≤ 800 := (confidence_gt_iff f).mp hc
    refine ⟨?_, le_min hmin (WithTop.coe_le_coe.mpr hf.1),
      max_le hmax (WithBot.coe_le_coe.mpr hf.2)⟩
    intro x hx
    simp only [List.mem_append, List.mem_singleton] at hx
    rcases hx with hx | rfl
    · exact hbuf x hx
    · exact hf
  · exact h

lemma runTracker_inv (inputs : List ℝ) : trackerInv (runTracker inputs) := by
  unfold runTracker
  have h0 : trackerInv initialTrackerState :=
    ⟨by simp [initialTrackerState], by simp [initialTrackerState],
     by simp [initialTrackerState]⟩
  revert h0
  generalize initialTrackerState = s0
  induction inputs generalizing s0 with
  | nil => exact fun h0 => h0
  | cons x xs ih =>
    intro h0
    exact ih _ (handleRangeDetection_preserves s0 x h0)

/-- C10: in every range-detection session, every frequency admitted
into the rolling buffer lies in `[100, 800]` (in particular a bass's
82 Hz low note is never recorded), the running minimum never drops
below 100 and the running maximum never exceeds 800, and every
`VocalRange` snapshot computed from a nonempty buffer has
`lowestFrequency ≥ 100` and `highestFrequency ≤ 800`. -/
theorem runTracker_only_typical_band (inputs : List ℝ) :
    (∀ f ∈ (runTracker inputs).recordedFrequencies, 100 ≤ f ∧ f ≤ 800) ∧
    ((100:ℝ) : WithTop ℝ) ≤ (runTracker inputs).minFrequency ∧
    (runTracker inputs).maxFrequency ≤ ((800:ℝ) : WithBot ℝ) ∧
    ((runTracker inputs).recordedFrequencies ≠ [] →
      100 ≤ (calculateVocalRange (runTracker inputs).recordedFrequencies).lowestFrequency ∧
      (calculateVocalRange (runTracker inputs).recordedFrequencies).highestFrequency ≤ 800) := by
  obtain ⟨hbuf, hmin, hmax⟩ := runTracker_inv inputs
  refine ⟨hbuf, hmin, hmax, fun hne => ?_⟩
  have hv : validFrequenciesOf (runTracker inputs).recordedFrequencies
      = (runTracker inputs).recordedFrequencies := by
    unfold validFrequenciesOf
    rw [List.filter_eq_self]
    intro a ha
    have := (hbuf a ha).1
    simp only [decide_eq_true_eq]
    linarith
  have hlen : ¬ (runTracker inputs).recordedFrequencies.length = 0 := by
    simpa [List.length_eq_zero] using hne
  constructor <;> simp only [calculateVocalRange, hv, if_neg hlen]
  · exact le_listMin _ 100 hne fun x hx => (hbuf x hx).1
  · exact listMax_le _ 800 hne fun x hx => (hbuf x hx).2

/-- Witness for C10: a one-sample session at 200 Hz. -/
theorem runTracker_only_typical_band_witness :
    (∀ f ∈ (runTracker [(200:ℝ)]).recordedFrequencies, 100 ≤ f ∧ f ≤ 800) ∧
    (100 ≤ (calculateVocalRange (runTracker [(200:ℝ)]).recordedFrequencies).lowestFrequency ∧
      (calculateVocalRange (runTracker [(200:ℝ)]).recordedFrequencies).highestFrequency ≤ 800) := by
  have h := runTracker_only_typical_band [(200:ℝ)]
  have hne : (runTracker [(200:ℝ)]).recordedFrequencies ≠ [] := by
    show (handleRangeDetection initialTrackerState 200).recordedFrequencies ≠ []
    unfold handleRangeDetection
    rw [if_pos (by unfold calculatePitchConfidence; norm_num)]
    simp
  exact ⟨h.1, h.2.2.2 hne⟩

/-! ### C6: the pitch detector's silence gate and frequency range -/

/-- C6: a frame whose RMS energy is below the 0.01 silence threshold
yields no pitch; and whenever the detector does return a frequency, it
is `sampleRate / bestLag` for the winning correlation lag, and lies in
the human voice range `[80, 1100]`. -/
theorem detectPitch_silence_and_range (audioBuffer : List ℝ) (sampleRate : ℝ) :
    (rmsOf audioBuffer < 0.01 → detectPitch audioBuffer sampleRate = none) ∧
    (∀ f, detectPitch audioBuffer sampleRate = some f →
      f = sampleRate / ((bestSearch audioBuffer sampleRate).2 : ℝ) ∧
      80 ≤ f ∧ f ≤ 1100) := by
  constructor
  · intro h
    unfold detectPitch
    rw [if_pos h]
  · intro f hf
    simp only [detectPitch] at hf
    split_ifs at hf with h1 h2 h3
    rw [Option.some_inj] at hf
    subst hf
    push_neg at h3
    exact ⟨rfl, h3.1, h3.2⟩

/-- The RMS of an all-zero frame is below the silence threshold. -/
lemma rms_zero_frame : rmsOf [(0:ℝ), 0, 0, 0] < 0.01 := by
  unfold rmsOf
  norm_num [List.map_cons, List.map_nil, List.sum_cons, List.sum_nil,
    List.length_cons, List.length_nil, Real.sqrt_zero]

lemma rms_demo_frame : ¬ rmsOf [(1:ℝ), 1, 0, 0] < 0.01 := by
  rw [not_lt]
  unfold rmsOf
  have h1 : (([(1:ℝ), 1, 0, 0].map fun v => v * v).sum) / (([(1:ℝ), 1, 0, 0].length : ℕ) : ℝ)
      = 1/2 := by
    norm_num [List.map_cons, List.map_nil, List.sum_cons, List.sum_nil,
      List.length_cons, List.length_nil]
  rw [h1, show (0.01:ℝ) = 1/100 by norm_num]
  exact (Real.le_sqrt (by norm_num) (by norm_num)).mpr (by norm_num)

lemma minLag_demo : minLagOf 1100 = 1 := by
  unfold minLagOf
  rw [show (1100:ℝ)/1100 = 1 by norm_num]
  exact Int.floor_one

lemma maxLag_demo : maxLagOf 1100 = 13 := by
  unfold maxLagOf
  rw [Int.floor_eq_iff]
  constructor <;> norm_num

lemma candidateLags_demo : candidateLags [(1:ℝ), 1, 0, 0] 1100 = [1, 2, 3] := by
  unfold candidateLags
  rw [minLag_demo, maxLag_demo]
  show (List.range (min (13:ℤ).toNat 4)).drop (1:ℤ).toNat = [1, 2, 3]
  decide

lemma corr_demo_1 : correlationAt [(1:ℝ), 1, 0, 0] 1 = 1 := by
  unfold correlationAt
  show ((List.range 3).map fun i =>
    List.getD [(1:ℝ), 1, 0, 0] i 0 * List.getD [(1:ℝ), 1, 0, 0] (i + 1) 0).sum = 1
  rw [show List.range 3 = [0, 1, 2] from by decide]
  norm_num [List.map_cons, List.map_nil, List.sum_cons, List.sum_nil,
    List.getD_cons_zero, List.getD_cons_succ]

lemma corr_demo_2 : correlationAt [(1:ℝ), 1, 0, 0] 2 = 0 := by
  unfold correlationAt
  show ((List.range 2).map fun i =>
    List.getD [(1:ℝ), 1, 0, 0] i 0 * List.getD [(1:ℝ), 1, 0, 0] (i + 2) 0).sum = 0
  rw [show List.range 2 = [0, 1] from by decide]
  norm_num [List.map_cons, List.map_nil, List.sum_cons, List.sum_nil,
    List.getD_cons_zero, List.getD_cons_succ]

lemma corr_demo_3 : correlationAt [(1:ℝ), 1, 0, 0] 3 = 0 := by
  unfold correlationAt
  show ((List.range 1).map fun i =>
    List.getD [(1:ℝ), 1, 0, 0] i 0 * List.getD [(1:ℝ), 1, 0, 0] (i + 3) 0).sum = 0
  rw [show List.range 1 = [0] from by decide]
  norm_num [List.map_cons, List.map_nil, List.sum_cons, List.sum_nil,
    List.getD_cons_zero, List.getD_cons_succ]

lemma bestSearch_demo : bestSearch [(1:ℝ), 1, 0, 0] 1100 = (1, 1) := by
  unfold bestSearch
  rw [candidateLags_demo, List.foldl_cons, List.foldl_cons, List.foldl_cons,
    List.foldl_nil, corr_demo_1, corr_demo_2, corr_demo_3]
  norm_num

lemma detectPitch_demo : detectPitch [(1:ℝ), 1, 0, 0] 1100 = some 1100 := by
  unfold detectPitch
  rw [if_neg rms_demo_frame]
  simp only [bestSearch_demo]
  norm_num

/-- Witness for C6: silence on an all-zero frame; a clear 1100 Hz
detection on a small demonstration frame. -/
theorem detectPitch_silence_and_range_witness :
    detectPitch [(0:ℝ), 0, 0, 0] 44100 = none ∧
    ((1100:ℝ) = 1100 / ((bestSearch [(1:ℝ), 1, 0, 0] 1100).2 : ℝ) ∧
      80 ≤ (1100:ℝ) ∧ (1100:ℝ) ≤ 1100) :=
  ⟨(detectPitch_silence_and_range [(0:ℝ), 0, 0, 0] 44100).1 rms_zero_frame,
   (detectPitch_silence_and_range [(1:ℝ), 1, 0, 0] 1100).2 1100 detectPitch_demo⟩

/-! ### C8: the optimal root note for the bass-like range [82.41, 329.63] -/

lemma bass_mid_as_table : ((82.41:ℝ) + 329.63) / 2 = ((20602:ℕ):ℝ)/100 * (2:ℝ)^((4:ℤ)-4) := by
  norm_num

lemma bass_mid_rounded : roundedNoteNumOf (((82.41:ℝ) + 329.63) / 2) = 44 := by
  have hL1 : (((-9):ℤ):ℝ)/((8:ℕ):ℝ) ≤ Real.logb 2 ((20602:ℝ)/44000) :=
    le_logb_of_pow _ (-9) 8 (by norm_num) (by norm_num) (by norm_num)
  have hL2 : Real.logb 2 ((20602:ℝ)/44000) < (((-25):ℤ):ℝ)/((24:ℕ):ℝ) :=
    logb_lt_of_pow _ (-25) 24 (by norm_num) (by norm_num) (by norm_num)
  push_cast at hL1 hL2
  unfold roundedNoteNumOf
  rw [bass_mid_as_table, noteNum_split 20602 0 4 (by norm_num), round_eq,
    Int.floor_eq_iff]
  push_cast
  constructor <;> linarith

lemma bass_mid_pos : (0:ℝ) < ((82.41:ℝ) + 329.63) / 2 := by norm_num

lemma bass_mid_note : (frequencyToNote (((82.41:ℝ) + 329.63) / 2)).note = ("G#") := by
  rw [frequencyToNote_of_pos _ bass_mid_pos, bass_mid_rounded]
  decide

lemma bass_mid_octave : (frequencyToNote (((82.41:ℝ) + 329.63) / 2)).octave = 3 := by
  rw [frequencyToNote_of_pos _ bass_mid_pos, bass_mid_rounded]
  decide

/-- C8: on the bass-like vocal range `[82.41, 329.63]`,
`calculateOptimalRootNote` returns the label G#3, whose frequency
207.65 (via `noteToFrequency`) lies inside the range, and whose octave
3 lies in the normalized band `[3, 5]`. -/
theorem calculateOptimalRootNote_bass_range :
    calculateOptimalRootNote ⟨("E2"), ("E4"), 82.41, 329.63, 24, ("bass")⟩ = some ("G#3") ∧
    parseNoteString ("G#3") = some (("G#"), 3) ∧
    noteToFrequency ("G#") 3 = some (207.65:ℝ) ∧
    ((82.41:ℝ) ≤ 207.65 ∧ (207.65:ℝ) ≤ 329.63) ∧
    (3 ≤ (3:ℤ) ∧ (3:ℤ) ≤ 5) := by
  have hp : parseNoteString ("G#3") = some (("G#"), (3:ℤ)) := by decide
  have hn : noteToFrequency ("G#") 3 = some (((41530/100:ℚ):ℝ) * (2:ℝ)^((3:ℤ)-4)) :=
    noteToFrequency_eval _ _ _ (by rfl) (by norm_num)
  have hn' : noteToFrequency ("G#") 3 = some (207.65:ℝ) := by
    rw [hn]
    norm_num
  refine ⟨?_, hp, hn', by norm_num, by norm_num⟩
  dsimp only [calculateOptimalRootNote]
  rw [if_neg (by norm_num : ¬((82.41:ℝ) = 0 ∨ (329.63:ℝ) = 0))]
  rw [if_neg (show ¬(((82.41:ℝ) + 329.63) / 2 < 82.41 + (329.63 - 82.41) * 0.2) from by norm_num)]
  rw [if_neg (show ¬(((82.41:ℝ) + 329.63) / 2 > 82.41 + (329.63 - 82.41) * 0.8) from by norm_num)]
  rw [bass_mid_octave, bass_mid_note]
  rw [if_neg (by norm_num : ¬(3:ℤ) < 3), if_neg (by norm_num : ¬(3:ℤ) > 5)]
  rw [show ("G#") ++ toString (3:ℤ) = ("G#3") from by decide]
  simp only [hp, hn']
  rw [if_neg (by norm_num : ¬(207.65:ℝ) < 82.41),
    if_neg (by norm_num : ¬(207.65:ℝ) > 329.63)]

/-! ### C9: positivity guards in front of `Math.log2` -/

lemma lookup_pos_of_all (l : List (String × ℚ)) (s : String) (b : ℚ)
    (hall : ∀ p ∈ l, 0 < p.2) (h : l.lookup s = some b) : 0 < b := by
  induction l with
  | nil => simp [List.lookup] at h
  | cons p t ih =>
    obtain ⟨k, v⟩ := p
    rw [List.lookup_cons] at h
    cases hsk : s == k
    · simp only [hsk] at h
      exact ih (fun q hq => hall q (by simp [hq])) h
    · simp only [hsk] at h
      rw [Option.some_inj] at h
      subst h
      exact hall (k, v) (by simp)

lemma lookupNote_pos (s : String) (b : ℚ) (h : lookupNote s = some b) : 0 < b := by
  refine lookup_pos_of_all NOTE_FREQUENCIES s b ?_ h
  intro p hp
  fin_cases hp <;> norm_num

lemma noteToFrequency_pos (p : String) (o : ℤ) (t : ℝ)
    (h : noteToFrequency p o = some t) : 0 < t := by
  unfold noteToFrequency at h
  cases hl : lookupNote (jsToUpperCase p) with
  | none =>
    simp only [hl] at h
    exact (Option.noConfusion h)
  | some b =>
    have hbq : 0 < b := lookupNote_pos _ _ hl
    simp only [hl] at h
    split_ifs at h with hb
    rw [Option.some_inj] at h
    subst h
    have hbr : (0:ℝ) < (b:ℝ) := by exact_mod_cast hbq
    positivity

/-- C9, counterexample: `isPitchInTolerance`, called with a detected
frequency of 0 against the valid target A4, feeds the non-positive
argument `0 / 440 = 0` to `Math.log2` — no positivity check happens
first. -/
theorem isPitchInTolerance_log2_nonpositive :
    ((0:ℝ) ∈ isPitchInToleranceLog2Args 0 ("A") 4) ∧ ¬ (0:ℝ) > 0 := by
  constructor
  · unfold isPitchInToleranceLog2Args
    have hn : noteToFrequency ("A") 4 = some (((44000/100:ℚ):ℝ) * (2:ℝ)^((4:ℤ)-4)) :=
      noteToFrequency_eval _ _ _ (by rfl) (by norm_num)
    simp only [hn, List.mem_singleton]
    norm_num
  · norm_num

/-- C9, amended: `frequencyToNote` and `calculateCentsDifference` guard
their frequency inputs and only ever feed positive arguments to
`Math.log2`; `isPitchInTolerance` has no such guard, and its `log2`
argument is positive only under the caller-side precondition that the
detected frequency is positive. -/
theorem log2_positivity_guards :
    (∀ f : ℝ, ∀ a ∈ frequencyToNoteLog2Args f, 0 < a) ∧
    (∀ f1 f2 : ℝ, ∀ a ∈ calculateCentsDifferenceLog2Args f1 f2, 0 < a) ∧
    (∀ (f : ℝ) (p : String) (o : ℤ), 0 < f →
      ∀ a ∈ isPitchInToleranceLog2Args f p o, 0 < a) := by
  refine ⟨fun f a ha => ?_, fun f1 f2 a ha => ?_, fun f p o hf a ha => ?_⟩
  · unfold frequencyToNoteLog2Args at ha
    split_ifs at ha with h
    · simp at ha
    · simp only [List.mem_singleton] at ha
      subst ha
      have hC0 : (0:ℝ) < C0 := by
        unfold C0
        positivity
      push_neg at h
      exact div_pos h hC0
  · unfold calculateCentsDifferenceLog2Args at ha
    split_ifs at ha with h
    · simp at ha
    · simp only [List.mem_singleton] at ha
      subst ha
      push_neg at h
      exact div_pos h.2 h.1
  · unfold isPitchInToleranceLog2Args at ha
    cases hl : noteToFrequency p o with
    | none => simp only [hl] at ha; simp at ha
    | some t =>
      simp only [hl, List.mem_singleton] at ha
      subst ha
      exact div_pos hf (noteToFrequency_pos p o t hl)

/-- Witness for C9's amended theorem: a positive 440 Hz input against
the valid target A4. -/
theorem log2_positivity_guards_witness :
    (0:ℝ) < 440 ∧ (∀ a ∈ isPitchInToleranceLog2Args 440 ("A") 4, 0 < a) :=
  ⟨by norm_num, log2_positivity_guards.2.2 440 ("A") 4 (by norm_num)⟩

end VocalTrainer
